import Mathlib

/-!
Verification of the analog gauge reader's core pipeline against its
implementation in `_analog_gauge_reader.py` and `_image_processing.py`.

The embedding models:
* the per-frame orchestrator state machine of `main` (value history, warning
  rate limiter, no-measurement watchdog, debug-export counter) over `ℚ`
  (Python floats modelled as exact rationals for the control-flow logic);
* `detect_dial`'s circle averaging and the dial-position median stabilizer;
* `angle2value` (with Python's `ZeroDivisionError` modelled as `Option.none`);
* the needle-detection geometry of `get_needle_angle` and
  `filter_lines_for_needle` over `ℝ` (`np.arctan2 y x` is `Complex.arg ⟨x, y⟩`,
  `**0.5` of a nonnegative sum of squares is `Real.sqrt`);
* the in-place buffer effect of the inner-disk mask in `get_needle_angle`
  (`cv2.circle` with thickness `-1` modelled as an exact disk fill).
-/

/-- A raw `(x, y, r)` triple as produced by circle detection. -/
abbrev Triple := ℚ × ℚ × ℚ

/-- Source loop `while len(l) > N: del l[0]` from `main` (applied to both
`calibration_lst` and `values_lst`). -/
def trimOldest (N : ℕ) : List α → List α
  | [] => []
  | a :: rest => if rest.length + 1 > N then trimOldest N rest else a :: rest

/-- Model of `np.median` on a one-dimensional array: sort, take the middle element for
odd length, the mean of the two middle elements for even length. -/
def npMedian (l : List ℚ) : ℚ :=
  let s := List.insertionSort (fun a b => a ≤ b) l
  if l.length % 2 = 1 then s.getD (l.length / 2) 0
  else (s.getD (l.length / 2 - 1) 0 + s.getD (l.length / 2) 0) / 2

/-- Model of `np.median(lst, axis=0)` on a list of `(x, y, r)` triples: the
coordinate-wise median. -/
def npMedianTriple (l : List Triple) : Triple :=
  (npMedian (l.map fun c => c.1),
   npMedian (l.map fun c => c.2.1),
   npMedian (l.map fun c => c.2.2))

/-- The dial-position stabilizer step from `main` (lines 223-228): when
`median_filter_dial_position_N > 1`, append the raw triple, drop the oldest
entries while the history is longer than `N`, and output the per-axis median;
otherwise the history is untouched and the raw triple passes through. Returns
(new history, stabilized output). -/
def dialStep (N : ℕ) (hist : List Triple) (raw : Triple) : List Triple × Triple :=
  if 1 < N then
    let hist1 := trimOldest N (hist ++ [raw])
    (hist1, npMedianTriple hist1)
  else (hist, raw)

/-- The dial history after pushing a whole sequence of raw triples, starting
from the empty `calibration_lst`. -/
def stabHist (N : ℕ) (raws : List Triple) : List Triple :=
  raws.foldl (fun h c => (dialStep N h c).1) []

/-- Model of `np.mean(circles, axis=1).flatten()` for the `(1, k, 3)` circle array:
the coordinate-wise arithmetic mean of the `k` circles. -/
def npMeanTriple (cs : List Triple) : Triple :=
  ((cs.map fun c => c.1).sum / cs.length,
   (cs.map fun c => c.2.1).sum / cs.length,
   (cs.map fun c => c.2.2).sum / cs.length)

/-- Function `detect_dial` (lines 86-110) restricted to its geometric content: the
external `cv2.HoughCircles` result is `none` when no circles are found,
`some cs` otherwise; zero circles yield no geometry, otherwise the mean. -/
def detect_dial (circles : Option (List Triple)) : Option Triple :=
  match circles with
  | none => none
  | some cs => if cs.length = 0 then none else some (npMeanTriple cs)

/-- The four `DetectionError` variants raised per frame in `main` and
`get_needle_angle`. -/
inductive DetectErr where
  | dialNotFound
  | noLinesDetected
  | tooManyCandidates
  | noNeedleAfterFiltering
deriving DecidableEq

/-- Source `main` lines 219-221: a `None` geometry from `detect_dial` raises
`DetectionError('No circles found')`. -/
def classify_dial (circles : Option (List Triple)) : Except DetectErr Triple :=
  match detect_dial circles with
  | none => Except.error DetectErr.dialNotFound
  | some g => Except.ok g

/-- The warning-related configuration of `main`. -/
structure WarnConfig where
  min_warn : ℚ
  max_warn : ℚ
  warn_interval : ℚ
  warn_no_detections_s : ℚ
  median_filter_value_N : ℕ

/-- The loop-local mutable state of `main` that the claims are about. -/
structure LoopState where
  debug_export_number : ℕ
  last_warn_time : ℚ
  values_lst : List ℚ
  last_successful_detection_time : ℚ
deriving DecidableEq

/-- Alerts handed to `send_warning` during one frame. -/
inductive Alert where
  | outOfRange (v : ℚ)
  | noMeasurement
deriving DecidableEq

/-- Source `main` lines 302-317: the state updates on a frame whose needle angle
resolved to `value`, at wall-clock time `now` (the several `time.time()`
calls within one frame are modelled as the single instant `now`). -/
def successStep (cfg : WarnConfig) (st : LoopState) (value : ℚ) (now : ℚ) :
    LoopState × List Alert :=
  let values1 := trimOldest cfg.median_filter_value_N (st.values_lst ++ [value])
  if cfg.median_filter_value_N ≤ values1.length ∧
      st.last_warn_time + cfg.warn_interval < now then
    let avg := npMedian values1
    if avg ≤ cfg.min_warn ∨ cfg.max_warn ≤ avg then
      ({ st with values_lst := values1, last_warn_time := now,
                 last_successful_detection_time := now },
       [Alert.outOfRange avg])
    else
      ({ st with values_lst := values1, last_successful_detection_time := now }, [])
  else
    ({ st with values_lst := values1, last_successful_detection_time := now }, [])

/-- Source `main` lines 321-324: the `except DetectionError` handler only advances
the mod-10 debug export counter. -/
def errorStep (st : LoopState) : LoopState × List Alert :=
  ({ st with debug_export_number := (st.debug_export_number + 1) % 10 }, [])

/-- Source `main` lines 346-351: the no-measurement watchdog that runs after the
try/except block on every frame. -/
def watchdogTail (cfg : WarnConfig) (now : ℚ) (p : LoopState × List Alert) :
    LoopState × List Alert :=
  if p.1.last_successful_detection_time + cfg.warn_no_detections_s < now ∧
      p.1.last_warn_time + cfg.warn_interval < now then
    ({ p.1 with last_warn_time := now }, p.2 ++ [Alert.noMeasurement])
  else p

/-- One full pass of `main`'s loop tail over the watchdog-relevant state:
the frame either resolved a value (`Except.ok`) or raised a
`DetectionError` (`Except.error`), after which the watchdog runs. -/
def frameStep (cfg : WarnConfig) (st : LoopState) (outcome : Except DetectErr ℚ)
    (now : ℚ) : LoopState × List Alert :=
  watchdogTail cfg now
    (match outcome with
     | Except.ok v => successStep cfg st v now
     | Except.error _ => errorStep st)

/-- A grayscale image buffer: pixel coordinates to intensity. -/
abbrev GrayImage := ℤ × ℤ → ℕ

/-- Model of `cv2.circle(img, (cx, cy), rad, v, -1)`: fill the disk of radius `rad`
around `(cx, cy)` with intensity `v` (the external drawing capability
modelled as an exact integer disk fill). -/
def fillDisk (img : GrayImage) (cx cy rad : ℤ) (v : ℕ) : GrayImage :=
  fun p => if (p.1 - cx) ^ 2 + (p.2 - cy) ^ 2 ≤ rad ^ 2 then v else img p

/-- Model of `cv2.bitwise_or(a, b)`: pixel-wise or, allocating a fresh buffer. -/
def bitwiseOrImg (a b : GrayImage) : GrayImage := fun p => a p ||| b p

/-- The masking prelude of `get_needle_angle` (lines 267-271) tracked at the
buffer level. `cv2.circle` draws into the caller's array `gray` in place;
`cv2.bitwise_or` then rebinds the local name `gray` to a fresh array, so the
caller's buffer keeps only the inner-disk fill. Returns
(caller's buffer after the call, local working image). -/
def needleMaskEffect (gray : GrayImage) (cx cy rInner rOuter : ℤ) :
    GrayImage × GrayImage :=
  let callerBuffer := fillDisk gray cx cy rInner 255
  let mask := fillDisk (fun _ => 255) cx cy rOuter 0
  let localGray := bitwiseOrImg callerBuffer mask
  (callerBuffer, localGray)

open scoped Classical

/-- Function `dist_2_pts` from `_image_processing.py` line 28:
`((x2 - x1)**2 + (y2 - y1)**2)**0.5`. The exponent `0.5` on the nonnegative
sum of squares is the real square root. -/
noncomputable def dist_2_pts (x1 y1 x2 y2 : ℝ) : ℝ :=
  Real.sqrt ((x2 - x1) ^ 2 + (y2 - y1) ^ 2)

/-- Model of `np.arctan2 yv xv`: the angle of the point `(xv, yv)`, in `(-π, π]`,
which is exactly `Complex.arg` of `xv + yv * I`. -/
noncomputable def arctan2 (yv xv : ℝ) : ℝ := Complex.arg ⟨xv, yv⟩

/-- A line segment `(x1, y1, x2, y2)` as returned by `cv2.HoughLinesP`. -/
abbrev Seg := ℝ × ℝ × ℝ × ℝ

/-- The per-candidate angle from the loop body of `get_needle_angle`
(lines 317-331): take `arctan2` at the endpoint farther from the center
`(x, y)` (ties fall to the second endpoint, as in the source's
`if dist_pt_1 > dist_pt_2`), then wrap negative results by adding `2π`. -/
noncomputable def candidate_angle (x y x1 y1 x2 y2 : ℝ) : ℝ :=
  let dist_pt_1 := dist_2_pts x y x1 y1
  let dist_pt_2 := dist_2_pts x y x2 y2
  let ang :=
    if dist_pt_1 > dist_pt_2 then arctan2 (-(x1 - x)) (y1 - y)
    else arctan2 (-(x2 - x)) (y2 - y)
  if ang < 0 then ang + 2 * Real.pi else ang

/-- Function `filter_lines_for_needle` (lines 357-373): skip segments shorter than
`min_length * r`; sort the two endpoint distances from the center so that
`diff1 ≤ diff2`; keep the segment iff
`r_inner_min*r < diff1 < r_inner_max*r` and
`r_outer_min*r < diff2 < r_outer_max*r`, preserving input order. -/
noncomputable def filter_lines_for_needle
    (x y r min_length r_inner_min r_inner_max r_outer_min r_outer_max : ℝ) :
    List Seg → List Seg
  | [] => []
  | (x1, y1, x2, y2) :: rest =>
      let restF := filter_lines_for_needle x y r min_length
        r_inner_min r_inner_max r_outer_min r_outer_max rest
      if dist_2_pts x1 y1 x2 y2 < min_length * r then restF
      else
        let diff1 := dist_2_pts x y x1 y1
        let diff2 := dist_2_pts x y x2 y2
        let p := if diff1 > diff2 then (diff2, diff1) else (diff1, diff2)
        if r_inner_min * r < p.1 ∧ p.1 < r_inner_max * r ∧
            r_outer_min * r < p.2 ∧ p.2 < r_outer_max * r then
          (x1, y1, x2, y2) :: restF
        else restF

/-- The `angles` list accumulated by `get_needle_angle`'s loop, in order. -/
noncomputable def needle_angles (x y : ℝ) : List Seg → List ℝ
  | [] => []
  | (x1, y1, x2, y2) :: rest => candidate_angle x y x1 y1 x2 y2 :: needle_angles x y rest

/-- The `lengths` list accumulated by `get_needle_angle`'s loop, in order. -/
noncomputable def needle_lengths : List Seg → List ℝ
  | [] => []
  | (x1, y1, x2, y2) :: rest => dist_2_pts x1 y1 x2 y2 :: needle_lengths rest

/-- Model of `np.average(values, weights)`: the weighted arithmetic mean
`Σ valuesᵢ * weightsᵢ / Σ weightsᵢ`. -/
noncomputable def np_average (values weights : List ℝ) : ℝ :=
  (List.zipWith (fun a w => a * w) values weights).sum / weights.sum

/-- Function `get_needle_angle` (lines 286-337) from the Hough-line call onward,
restricted to its numeric content. The external `cv2.HoughLinesP` result is
`none` when no lines are found, `some ls` otherwise. The string results of
the source are the `Except.error` branch. -/
noncomputable def get_needle_angle
    (x y r min_length r_inner_min r_inner_max r_outer_min r_outer_max : ℝ)
    (lines : Option (List Seg)) : Except String ℝ :=
  match lines with
  | none => Except.error "no lines from Hough transform detected"
  | some ls =>
      let final_line_list := filter_lines_for_needle x y r min_length
        r_inner_min r_inner_max r_outer_min r_outer_max ls
      if 75 < final_line_list.length then
        Except.error "too many possible candidates for needle"
      else if final_line_list ≠ [] then
        Except.ok (np_average (needle_angles x y final_line_list)
          (needle_lengths final_line_list))
      else Except.error "no lines after filtering for valid needle positions"

/-- Function `angle2value` from `_analog_gauge_reader.py` lines 30-39. The source
divides by `angle_range` with no guard; Python raises `ZeroDivisionError`
when `max_angle = min_angle`, modelled as `none`. -/
noncomputable def angle2value (min_angle max_angle min_value max_value angle : ℝ) :
    Option ℝ :=
  let angle_range := max_angle - min_angle
  let value_range := max_value - min_value
  if angle_range = 0 then none
  else some (min_value + ((angle - min_angle) * value_range) / angle_range)

/-- Claim C5: for every calibration with `max_angle ≠ min_angle`,
`angle2value` computes exactly
`min_value + (angle - min_angle) * (max_value - min_value) / (max_angle - min_angle)`;
it returns `min_value` at `angle = min_angle`, `max_value` at
`angle = max_angle`, the value midpoint at the angular midpoint, and `5`
for angle `135` under calibration `(0, 270, 0, 10)`. -/
theorem angle2value_affine (mn mx mv mV a : ℝ) (h : mx ≠ mn) :
    angle2value mn mx mv mV a = some (mv + (a - mn) * (mV - mv) / (mx - mn)) ∧
    angle2value mn mx mv mV mn = some mv ∧
    angle2value mn mx mv mV mx = some mV ∧
    angle2value mn mx mv mV ((mn + mx) / 2) = some ((mv + mV) / 2) ∧
    angle2value 0 270 0 10 135 = some 5 := by
  have hne : mx - mn ≠ 0 := sub_ne_zero_of_ne h
  refine ⟨?_, ?_, ?_, ?_, ?_⟩
  · simp only [angle2value, if_neg hne]
  · simp [angle2value, hne]
  · simp only [angle2value, if_neg hne, Option.some_inj]
    field_simp
  · simp only [angle2value, if_neg hne, Option.some_inj]
    field_simp
    ring
  · norm_num [angle2value]

/-- Witness for `angle2value_affine` at the spec's concrete scenario. -/
theorem angle2value_affine_witness :
    (270 : ℝ) ≠ 0 ∧ angle2value 0 270 0 10 135 = some 5 :=
  ⟨by norm_num, (angle2value_affine 0 270 0 10 135 (by norm_num)).2.2.2.2⟩

/-- Claim C9: `angle2value` divides by `max_angle - min_angle` without a
guard, so with `max_angle = min_angle` the division by zero makes the call
fail (Python raises `ZeroDivisionError`), for every choice of the other
calibration bounds and of the angle. -/
theorem angle2value_div_by_zero (b mv mV a : ℝ) :
    angle2value b b mv mV a = none := by
  simp [angle2value]

/-- Claim C8: for `k ≥ 1` circles, `detect_dial` returns the coordinate-wise
arithmetic mean of the `k` `(x, y, r)` triples; with zero circles it returns
no geometry, which `main` turns into the dial-not-found outcome. -/
theorem detect_dial_mean (cs : List Triple) (h : cs ≠ []) :
    detect_dial (some cs) = some ((cs.map fun c => c.1).sum / cs.length,
      (cs.map fun c => c.2.1).sum / cs.length,
      (cs.map fun c => c.2.2).sum / cs.length) ∧
    detect_dial none = none ∧
    classify_dial none = Except.error DetectErr.dialNotFound := by
  have hlen : cs.length ≠ 0 := by simpa [List.length_eq_zero] using h
  exact ⟨by simp [detect_dial, npMeanTriple, hlen], rfl, rfl⟩

/-- Witness for `detect_dial_mean` on two concrete circles. -/
theorem detect_dial_mean_witness :
    ([((1 : ℚ), (2 : ℚ), (3 : ℚ)), (3, 4, 5)] : List Triple) ≠ [] ∧
    detect_dial (some [((1 : ℚ), (2 : ℚ), (3 : ℚ)), (3, 4, 5)]) = some (2, 3, 4) := by
  refine ⟨by simp, ?_⟩
  rw [(detect_dial_mean [(1, 2, 3), (3, 4, 5)] (by simp)).1]
  norm_num

/-- Claim C1 counterexample: a frame ending in a `DetectionError` at time
`100`, starting from reference point `0`, leaves the silence timer's
reference point at `0`; it is not updated to the frame's time, contrary to
the claim. -/
theorem detection_error_no_reference_update :
    (frameStep ⟨5, 100, 600, 1000000, 1⟩ ⟨0, 0, [], 0⟩
        (Except.error DetectErr.dialNotFound) 100).1.last_successful_detection_time = 0 ∧
    (0 : ℚ) ≠ 100 := by
  constructor
  · norm_num [frameStep, watchdogTail, errorStep]
  · norm_num

/-- Claim C1 (amended): handling a `DetectionError` frame leaves both the
silence timer's reference point and `values_lst` unchanged (only the debug
export counter advances, mod 10); the reference point is reset to the
frame's time exactly on frames that resolve a needle angle. -/
theorem detection_error_state_effect (cfg : WarnConfig) (st : LoopState)
    (e : DetectErr) (now : ℚ) :
    (frameStep cfg st (Except.error e) now).1.last_successful_detection_time =
        st.last_successful_detection_time ∧
    (frameStep cfg st (Except.error e) now).1.values_lst = st.values_lst ∧
    (frameStep cfg st (Except.error e) now).1.debug_export_number =
        (st.debug_export_number + 1) % 10 ∧
    ∀ v : ℚ,
      (frameStep cfg st (Except.ok v) now).1.last_successful_detection_time = now := by
  refine ⟨?_, ?_, ?_, fun v => ?_⟩ <;>
    · simp only [frameStep, watchdogTail, errorStep, successStep]
      split_ifs <;> simp

lemma npMedian_single (a : ℚ) : npMedian [a] = a := by
  simp [npMedian, List.insertionSort, List.orderedInsert]

lemma successStep_last_successful (cfg : WarnConfig) (st : LoopState) (v now : ℚ) :
    (successStep cfg st v now).1.last_successful_detection_time = now := by
  simp only [successStep]
  split_ifs <;> rfl

lemma frameStep_ok (cfg : WarnConfig) (st : LoopState) (v now : ℚ)
    (hw : 0 ≤ cfg.warn_no_detections_s) :
    frameStep cfg st (Except.ok v) now = successStep cfg st v now := by
  simp only [frameStep, watchdogTail]
  rw [if_neg]
  rw [successStep_last_successful]
  rintro ⟨h1, -⟩
  linarith

/-- Claim C6 counterexample: with `warn_interval = 600`, on a frame at time
exactly `600` seconds after the last alert (so elapsed time is at least --
indeed equal to -- `warn_interval`), with a full value history whose median
`3` is below `min_warn = 5`, no alert is emitted: the source requires the
elapsed time to be strictly greater than `warn_interval`
(`last_warn_time + warn_interval < time.time()`). -/
theorem warn_interval_boundary_no_alert :
    (frameStep ⟨5, 100, 600, 1000000, 1⟩ ⟨0, 0, [], 0⟩ (Except.ok 3) 600).2 = [] ∧
    1 ≤ (trimOldest 1 (([] : List ℚ) ++ [3])).length ∧
    npMedian (trimOldest 1 (([] : List ℚ) ++ [3])) ≤ 5 ∧
    (600 : ℚ) - 0 = 600 := by
  refine ⟨?_, ?_, ?_, by norm_num⟩
  · norm_num [frameStep, watchdogTail, successStep, trimOldest]
  · norm_num [trimOldest]
  · norm_num [trimOldest, npMedian_single]

/-- Claim C6 (amended): an out-of-range alert is emitted on a successful
frame exactly when the post-push value history is full, its median is
`≤ min_warn` or `≥ max_warn`, and the time elapsed since the last alert is
strictly greater than `warn_interval`; emitting resets the last-alert time;
frames ending in a `DetectionError` emit no out-of-range alert; and with
`warn_interval = 600` two frames with out-of-range medians 10 seconds apart
produce exactly one alert, the second being suppressed. -/
theorem warn_rate_limited (cfg : WarnConfig) (st : LoopState) (v now : ℚ)
    (hw : 0 ≤ cfg.warn_no_detections_s) :
    ((frameStep cfg st (Except.ok v) now).2 =
        [Alert.outOfRange
          (npMedian (trimOldest cfg.median_filter_value_N (st.values_lst ++ [v])))] ↔
      (cfg.median_filter_value_N ≤
          (trimOldest cfg.median_filter_value_N (st.values_lst ++ [v])).length ∧
       st.last_warn_time + cfg.warn_interval < now ∧
       (npMedian (trimOldest cfg.median_filter_value_N (st.values_lst ++ [v])) ≤
          cfg.min_warn ∨
        cfg.max_warn ≤
          npMedian (trimOldest cfg.median_filter_value_N (st.values_lst ++ [v]))))) ∧
    ((frameStep cfg st (Except.ok v) now).2 ≠ [] →
      (frameStep cfg st (Except.ok v) now).1.last_warn_time = now) ∧
    (∀ e : DetectErr, ∀ a ∈ (frameStep cfg st (Except.error e) now).2,
      a = Alert.noMeasurement) ∧
    (frameStep ⟨5, 100, 600, 1000000, 1⟩ ⟨0, 0, [], 0⟩ (Except.ok 3) 1000).2 =
        [Alert.outOfRange 3] ∧
    (frameStep ⟨5, 100, 600, 1000000, 1⟩
        (frameStep ⟨5, 100, 600, 1000000, 1⟩ ⟨0, 0, [], 0⟩ (Except.ok 3) 1000).1
        (Except.ok 3) 1010).2 = [] := by
  have hok := frameStep_ok cfg st v now hw
  refine ⟨?_, ?_, ?_, ?_, ?_⟩
  · rw [hok]
    simp only [successStep]
    split_ifs with h1 h2
    · simp [h1.1, h1.2, h2]
    · constructor
      · intro hfalse; exact absurd hfalse (by simp)
      · rintro ⟨-, -, hc⟩; exact absurd hc h2
    · constructor
      · intro hfalse; exact absurd hfalse (by simp)
      · rintro ⟨ha, hb, -⟩; exact absurd ⟨ha, hb⟩ h1
  · rw [hok]
    simp only [successStep]
    split_ifs <;> simp
  · intro e a ha
    simp only [frameStep, watchdogTail, errorStep] at ha
    split_ifs at ha <;> simp at ha
    exact ha
  · norm_num [frameStep, watchdogTail, successStep, trimOldest, npMedian_single]
  · norm_num [frameStep, watchdogTail, successStep, trimOldest, npMedian_single]

lemma trimOldest_eq_drop (N : ℕ) (l : List α) :
    trimOldest N l = l.drop (l.length - N) := by
  induction l with
  | nil => simp [trimOldest]
  | cons a rest ih =>
      simp only [trimOldest]
      split_ifs with h
      · rw [ih]
        have hN : (a :: rest).length - N = (rest.length - N) + 1 := by
          simp only [List.length_cons]; omega
        rw [hN, List.drop_succ_cons]
      · have h0 : (a :: rest).length - N = 0 := by
          simp only [List.length_cons]; omega
        rw [h0, List.drop_zero]

lemma stabHist_concat (N : ℕ) (l : List Triple) (a : Triple) :
    stabHist N (l ++ [a]) = (dialStep N (stabHist N l) a).1 := by
  simp [stabHist, List.foldl_append]

lemma stabHist_eq_drop (N : ℕ) (hN : 1 < N) (l : List Triple) :
    stabHist N l = l.drop (l.length - N) := by
  induction l using List.reverseRecOn with
  | nil => simp [stabHist]
  | append_singleton l a ih =>
      rw [stabHist_concat]
      simp only [dialStep, if_pos hN]
      rw [ih, trimOldest_eq_drop]
      rcases le_or_lt l.length N with hle | hlt
      · have h0 : l.length - N = 0 := Nat.sub_eq_zero_of_le hle
        rw [h0, List.drop_zero]
      · have hlen1 : (l.drop (l.length - N) ++ [a]).length - N = 1 := by
          simp only [List.length_append, List.length_drop, List.length_singleton]
          omega
        have hlen2 : (l ++ [a]).length - N = l.length + 1 - N := by
          simp [List.length_append]
        rw [hlen1, hlen2,
          List.drop_append_of_le_length (by rw [List.length_drop]; omega),
          List.drop_append_of_le_length (by omega),
          List.drop_drop]
        congr 2
        omega

/-- Claim C7: with window size `N > 1`, after each push the dial history is
exactly the most recent `min(count, N)` pushed triples (newest appended,
oldest dropped once the length exceeds `N`, so it never exceeds `N`
elements), and the stabilized output is the per-axis median of that window;
with `N ≤ 1` the raw triple passes through and the history is untouched. -/
theorem dial_stabilizer_window (N : ℕ) (raws : List Triple) (raw : Triple)
    (hist : List Triple) :
    (1 < N →
      stabHist N (raws ++ [raw]) = (raws ++ [raw]).drop (raws.length + 1 - N) ∧
      (stabHist N (raws ++ [raw])).length = min (raws.length + 1) N ∧
      (dialStep N (stabHist N raws) raw).2 =
        npMedianTriple ((raws ++ [raw]).drop (raws.length + 1 - N))) ∧
    (N ≤ 1 → dialStep N hist raw = (hist, raw)) := by
  constructor
  · intro hN
    have hdrop : stabHist N (raws ++ [raw]) =
        (raws ++ [raw]).drop (raws.length + 1 - N) := by
      rw [stabHist_eq_drop N hN]
      congr 1
      simp [List.length_append]
    refine ⟨hdrop, ?_, ?_⟩
    · rw [hdrop, List.length_drop]
      simp only [List.length_append, List.length_singleton]
      omega
    · have h2 : (dialStep N (stabHist N raws) raw).2 =
          npMedianTriple ((dialStep N (stabHist N raws) raw).1) := by
        simp only [dialStep, if_pos hN]
      rw [h2, ← stabHist_concat, hdrop]
  · intro hN
    simp only [dialStep, if_neg (by omega : ¬ 1 < N)]

/-- Witness for `dial_stabilizer_window` at `N = 2` with two pushes. -/
theorem dial_stabilizer_window_witness :
    1 < 2 ∧
    stabHist 2 ([((1 : ℚ), (1 : ℚ), (1 : ℚ))] ++ [(3, 5, 7)]) =
      ([((1 : ℚ), (1 : ℚ), (1 : ℚ))] ++ [(3, 5, 7)]).drop (1 + 1 - 2) :=
  ⟨by norm_num,
   ((dial_stabilizer_window 2 [(1, 1, 1)] (3, 5, 7) []).1 (by norm_num)).1⟩

lemma dist_2_pts_eval (x1 y1 x2 y2 d : ℝ) (hd : 0 ≤ d)
    (h : (x2 - x1) ^ 2 + (y2 - y1) ^ 2 = d ^ 2) :
    dist_2_pts x1 y1 x2 y2 = d := by
  rw [dist_2_pts, h, Real.sqrt_sq hd]

lemma minmax_of_swap (d1 d2 : ℝ) :
    (if d1 > d2 then (d2, d1) else (d1, d2)) = (min d1 d2, max d1 d2) := by
  split_ifs with h
  · rw [min_eq_right (le_of_lt h), max_eq_left (le_of_lt h)]
  · push_neg at h
    rw [min_eq_left h, max_eq_right h]

/-- Claim C4: a segment appears in the candidate list produced by
`filter_lines_for_needle` iff it is an input segment, its length is at least
`min_length * r`, and, with `d1` the smaller and `d2` the larger endpoint
distance from the center, `r_inner_min*r < d1 < r_inner_max*r` and
`r_outer_min*r < d2 < r_outer_max*r` hold strictly. -/
theorem filter_membership (x y r ml ri1 ri2 ro1 ro2 : ℝ) (hr : 0 < r)
    (lines : List Seg) (s : Seg) :
    s ∈ filter_lines_for_needle x y r ml ri1 ri2 ro1 ro2 lines ↔
      s ∈ lines ∧
      ml * r ≤ dist_2_pts s.1 s.2.1 s.2.2.1 s.2.2.2 ∧
      ri1 * r < min (dist_2_pts x y s.1 s.2.1) (dist_2_pts x y s.2.2.1 s.2.2.2) ∧
      min (dist_2_pts x y s.1 s.2.1) (dist_2_pts x y s.2.2.1 s.2.2.2) < ri2 * r ∧
      ro1 * r < max (dist_2_pts x y s.1 s.2.1) (dist_2_pts x y s.2.2.1 s.2.2.2) ∧
      max (dist_2_pts x y s.1 s.2.1) (dist_2_pts x y s.2.2.1 s.2.2.2) < ro2 * r := by
  induction lines with
  | nil => simp [filter_lines_for_needle]
  | cons a rest ih =>
      obtain ⟨x1, y1, x2, y2⟩ := a
      simp only [filter_lines_for_needle, minmax_of_swap]
      split_ifs with hshort hband
      · rw [ih]
        constructor
        · rintro ⟨hmem, hb⟩
          exact ⟨List.mem_cons_of_mem _ hmem, hb⟩
        · rintro ⟨hmem, hlen, hb⟩
          rcases List.mem_cons.mp hmem with rfl | hmem'
          · exact absurd hlen (not_le.mpr hshort)
          · exact ⟨hmem', hlen, hb⟩
      · rw [List.mem_cons, ih]
        constructor
        · rintro (rfl | ⟨hmem, hb⟩)
          · exact ⟨List.mem_cons_self _ _, not_lt.mp hshort, hband⟩
          · exact ⟨List.mem_cons_of_mem _ hmem, hb⟩
        · rintro ⟨hmem, hb⟩
          rcases List.mem_cons.mp hmem with rfl | hmem'
          · exact Or.inl rfl
          · exact Or.inr ⟨hmem', hb⟩
      · rw [ih]
        constructor
        · rintro ⟨hmem, hb⟩
          exact ⟨List.mem_cons_of_mem _ hmem, hb⟩
        · rintro ⟨hmem, hlen, h1, h2, h3, h4⟩
          rcases List.mem_cons.mp hmem with rfl | hmem'
          · exact absurd ⟨h1, h2, h3, h4⟩ hband
          · exact ⟨hmem', hlen, h1, h2, h3, h4⟩

/-- Witness for `filter_membership`: with center `(0,0)`, `r = 10`, the
default radius fractions and `min_length = 0.2`, the vertical segment from
`(0,2)` (hub band) to `(0,7)` (rim band) is accepted. -/
theorem filter_membership_witness :
    (0 : ℝ) < 10 ∧
    ((0, 2, 0, 7) : Seg) ∈
      filter_lines_for_needle 0 0 10 (1/5) (3/20) (3/5) (13/20) 1 [(0, 2, 0, 7)] := by
  refine ⟨by norm_num, ?_⟩
  refine (filter_membership 0 0 10 (1/5) (3/20) (3/5) (13/20) 1 (by norm_num)
    [(0, 2, 0, 7)] (0, 2, 0, 7)).mpr ?_
  have hlen : dist_2_pts 0 2 0 7 = 5 := dist_2_pts_eval _ _ _ _ _ (by norm_num) (by norm_num)
  have hd1 : dist_2_pts 0 0 0 2 = 2 := dist_2_pts_eval _ _ _ _ _ (by norm_num) (by norm_num)
  have hd2 : dist_2_pts 0 0 0 7 = 7 := dist_2_pts_eval _ _ _ _ _ (by norm_num) (by norm_num)
  refine ⟨List.mem_cons_self _ _, ?_, ?_, ?_, ?_, ?_⟩ <;>
    simp only [hlen, hd1, hd2] <;> norm_num

lemma arctan2_one_zero : arctan2 1 0 = Real.pi / 2 := by
  show Complex.arg ⟨0, 1⟩ = Real.pi / 2
  rw [show (⟨0, 1⟩ : ℂ) = Complex.I from rfl, Complex.arg_I]

lemma arctan2_neg_one_zero : arctan2 (-1) 0 = -(Real.pi / 2) := by
  show Complex.arg ⟨0, -1⟩ = -(Real.pi / 2)
  rw [show (⟨0, -1⟩ : ℂ) = -Complex.I from by
        apply Complex.ext <;> simp,
      Complex.arg_neg_I]

/-- Claim C2 counterexample: the horizontal segment from `(1,0)` to `(-1,0)`
with dial center `(0,0)` has both endpoints at distance `1` from the center
(and it passes `filter_lines_for_needle` under bounds admitting equidistant
endpoints), yet the two endpoint orders give angles `π/2` and `3π/2`: both
orders pick whichever endpoint is listed second. -/
theorem angle_swap_counterexample :
    ((1, 0, -1, 0) : Seg) ∈
      filter_lines_for_needle 0 0 2 (1/5) (1/4) (3/4) (1/4) (3/4) [(1, 0, -1, 0)] ∧
    dist_2_pts 0 0 1 0 = dist_2_pts 0 0 (-1) 0 ∧
    candidate_angle 0 0 1 0 (-1) 0 ≠ candidate_angle 0 0 (-1) 0 1 0 := by
  have h1 : dist_2_pts 0 0 1 0 = 1 :=
    dist_2_pts_eval _ _ _ _ _ (by norm_num) (by norm_num)
  have h2 : dist_2_pts 0 0 (-1) 0 = 1 :=
    dist_2_pts_eval _ _ _ _ _ (by norm_num) (by norm_num)
  have h3 : dist_2_pts 1 0 (-1) 0 = 2 :=
    dist_2_pts_eval _ _ _ _ _ (by norm_num) (by norm_num)
  have hc1 : candidate_angle 0 0 1 0 (-1) 0 = Real.pi / 2 := by
    have e1 : (-((-1 : ℝ) - 0)) = 1 := by norm_num
    have e2 : ((0 : ℝ) - 0) = 0 := by norm_num
    simp only [candidate_angle, h1, h2, gt_iff_lt, lt_self_iff_false, if_false,
      e1, e2, arctan2_one_zero]
    rw [if_neg (by linarith [Real.pi_pos])]
  have hc2 : candidate_angle 0 0 (-1) 0 1 0 = -(Real.pi / 2) + 2 * Real.pi := by
    have e1 : (-((1 : ℝ) - 0)) = -1 := by norm_num
    have e2 : ((0 : ℝ) - 0) = 0 := by norm_num
    simp only [candidate_angle, h1, h2, gt_iff_lt, lt_self_iff_false, if_false,
      e1, e2, arctan2_neg_one_zero]
    rw [if_pos (by linarith [Real.pi_pos])]
  refine ⟨?_, by rw [h1, h2], ?_⟩
  · simp only [filter_lines_for_needle, minmax_of_swap, h1, h2, h3]
    rw [if_neg (by norm_num), if_pos (by norm_num [min_def, max_def])]
    exact List.mem_cons_self _ _
  · rw [hc1, hc2]
    intro h
    have : Real.pi = 0 := by linarith
    exact Real.pi_ne_zero this

/-- Claim C2 (amended): the per-candidate needle angle is invariant under
swapping the segment's endpoint order whenever the two endpoints are at
different distances from the dial center; when they are equidistant, the
computation takes whichever endpoint is listed second, so the two orders
can yield different angles. -/
theorem angle_swap_symmetric (x y x1 y1 x2 y2 : ℝ)
    (h : dist_2_pts x y x1 y1 ≠ dist_2_pts x y x2 y2) :
    candidate_angle x y x1 y1 x2 y2 = candidate_angle x y x2 y2 x1 y1 := by
  rcases h.lt_or_lt with hlt | hlt
  · simp only [candidate_angle, gt_iff_lt]
    rw [if_neg (not_lt.mpr hlt.le), if_pos hlt]
  · simp only [candidate_angle, gt_iff_lt]
    rw [if_pos hlt, if_neg (not_lt.mpr hlt.le)]

/-- Witness for `angle_swap_symmetric` on a segment with endpoint distances
`3` and `4` from the center. -/
theorem angle_swap_symmetric_witness :
    dist_2_pts 0 0 0 3 ≠ dist_2_pts 0 0 0 4 ∧
    candidate_angle 0 0 0 3 0 4 = candidate_angle 0 0 0 4 0 3 := by
  have h3 : dist_2_pts 0 0 0 3 = 3 :=
    dist_2_pts_eval _ _ _ _ _ (by norm_num) (by norm_num)
  have h4 : dist_2_pts 0 0 0 4 = 4 :=
    dist_2_pts_eval _ _ _ _ _ (by norm_num) (by norm_num)
  have hne : dist_2_pts 0 0 0 3 ≠ dist_2_pts 0 0 0 4 := by
    rw [h3, h4]; norm_num
  exact ⟨hne, angle_swap_symmetric 0 0 0 3 0 4 hne⟩

lemma needle_angles_eq_map (x y : ℝ) (l : List Seg) :
    needle_angles x y l =
      l.map fun s => candidate_angle x y s.1 s.2.1 s.2.2.1 s.2.2.2 := by
  induction l with
  | nil => rfl
  | cons a rest ih =>
      obtain ⟨x1, y1, x2, y2⟩ := a
      simp [needle_angles, ih]

lemma needle_lengths_eq_map (l : List Seg) :
    needle_lengths l = l.map fun s => dist_2_pts s.1 s.2.1 s.2.2.1 s.2.2.2 := by
  induction l with
  | nil => rfl
  | cons a rest ih =>
      obtain ⟨x1, y1, x2, y2⟩ := a
      simp [needle_lengths, ih]

lemma zipWith_mul_map_sum (f g : Seg → ℝ) (l : List Seg) :
    (List.zipWith (fun a w => a * w) (l.map f) (l.map g)).sum =
      (l.map fun s => f s * g s).sum := by
  induction l with
  | nil => rfl
  | cons a rest ih => simp [ih]

lemma wrap_range (a : ℝ) (h1 : -Real.pi < a) (h2 : a ≤ Real.pi) :
    0 ≤ (if a < 0 then a + 2 * Real.pi else a) ∧
    (if a < 0 then a + 2 * Real.pi else a) < 2 * Real.pi := by
  split_ifs with h
  · constructor <;> linarith [Real.pi_pos]
  · exact ⟨not_lt.mp h, by linarith [Real.pi_pos]⟩

lemma candidate_angle_range (x y x1 y1 x2 y2 : ℝ) :
    0 ≤ candidate_angle x y x1 y1 x2 y2 ∧
    candidate_angle x y x1 y1 x2 y2 < 2 * Real.pi := by
  simp only [candidate_angle, arctan2]
  apply wrap_range
  · split_ifs <;> exact Complex.neg_pi_lt_arg _
  · split_ifs <;> exact Complex.arg_le_pi _

/-- Claim C3: for every line list whose filtered candidate list is non-empty
with at most 75 elements, `get_needle_angle` returns the arithmetic mean of
the per-candidate angles weighted by each segment's Euclidean pixel length,
where each candidate's angle is `atan2(-(xe - x), ye - y)` at the endpoint
farther from the center, wrapped into `[0, 2π)` by adding `2π` when
negative. -/
theorem needle_angle_weighted_mean (x y r ml ri1 ri2 ro1 ro2 : ℝ)
    (lines : List Seg)
    (h1 : filter_lines_for_needle x y r ml ri1 ri2 ro1 ro2 lines ≠ [])
    (h2 : (filter_lines_for_needle x y r ml ri1 ri2 ro1 ro2 lines).length ≤ 75) :
    get_needle_angle x y r ml ri1 ri2 ro1 ro2 (some lines) =
      Except.ok
        (((filter_lines_for_needle x y r ml ri1 ri2 ro1 ro2 lines).map fun s =>
            candidate_angle x y s.1 s.2.1 s.2.2.1 s.2.2.2 *
              dist_2_pts s.1 s.2.1 s.2.2.1 s.2.2.2).sum /
          ((filter_lines_for_needle x y r ml ri1 ri2 ro1 ro2 lines).map fun s =>
            dist_2_pts s.1 s.2.1 s.2.2.1 s.2.2.2).sum) ∧
    ∀ s ∈ filter_lines_for_needle x y r ml ri1 ri2 ro1 ro2 lines,
      0 ≤ candidate_angle x y s.1 s.2.1 s.2.2.1 s.2.2.2 ∧
      candidate_angle x y s.1 s.2.1 s.2.2.1 s.2.2.2 < 2 * Real.pi := by
  constructor
  · simp only [get_needle_angle]
    rw [if_neg (not_lt.mpr h2), if_pos h1]
    congr 1
    rw [np_average, needle_angles_eq_map, needle_lengths_eq_map, zipWith_mul_map_sum]
  · intro s _
    exact candidate_angle_range x y s.1 s.2.1 s.2.2.1 s.2.2.2

lemma filter_singleton_eval :
    filter_lines_for_needle 0 0 10 (1/5) (3/20) (3/5) (13/20) 1 [(0, 2, 0, 7)] =
      [(0, 2, 0, 7)] := by
  have hlen : dist_2_pts 0 2 0 7 = 5 :=
    dist_2_pts_eval _ _ _ _ _ (by norm_num) (by norm_num)
  have hd1 : dist_2_pts 0 0 0 2 = 2 :=
    dist_2_pts_eval _ _ _ _ _ (by norm_num) (by norm_num)
  have hd2 : dist_2_pts 0 0 0 7 = 7 :=
    dist_2_pts_eval _ _ _ _ _ (by norm_num) (by norm_num)
  simp only [filter_lines_for_needle, minmax_of_swap, hlen, hd1, hd2]
  rw [if_neg (by norm_num), if_pos (by norm_num [min_def, max_def])]

/-- Witness for `needle_angle_weighted_mean` on a single accepted segment. -/
theorem needle_angle_weighted_mean_witness :
    filter_lines_for_needle 0 0 10 (1/5) (3/20) (3/5) (13/20) 1 [(0, 2, 0, 7)] ≠ [] ∧
    get_needle_angle 0 0 10 (1/5) (3/20) (3/5) (13/20) 1 (some [(0, 2, 0, 7)]) =
      Except.ok
        (((filter_lines_for_needle 0 0 10 (1/5) (3/20) (3/5) (13/20) 1
              [(0, 2, 0, 7)]).map fun s =>
            candidate_angle 0 0 s.1 s.2.1 s.2.2.1 s.2.2.2 *
              dist_2_pts s.1 s.2.1 s.2.2.1 s.2.2.2).sum /
          ((filter_lines_for_needle 0 0 10 (1/5) (3/20) (3/5) (13/20) 1
              [(0, 2, 0, 7)]).map fun s =>
            dist_2_pts s.1 s.2.1 s.2.2.1 s.2.2.2).sum) := by
  have h1 : filter_lines_for_needle 0 0 10 (1/5) (3/20) (3/5) (13/20) 1
      [(0, 2, 0, 7)] ≠ [] := by
    rw [filter_singleton_eval]; simp
  have h2 : (filter_lines_for_needle 0 0 10 (1/5) (3/20) (3/5) (13/20) 1
      [(0, 2, 0, 7)]).length ≤ 75 := by
    rw [filter_singleton_eval]; simp
  exact ⟨h1,
    (needle_angle_weighted_mean 0 0 10 (1/5) (3/20) (3/5) (13/20) 1
      [(0, 2, 0, 7)] h1 h2).1⟩

lemma or_255_of_lt (n : ℕ) (h : n < 256) : n ||| 255 = 255 := by
  apply Nat.eq_of_testBit_eq
  intro i
  rw [Nat.testBit_lor]
  rcases Nat.lt_or_ge i 8 with hi | hi
  · have h255 : Nat.testBit 255 i = true := by
      interval_cases i <;> decide
    simp [h255]
  · have hn : Nat.testBit n i = false :=
      Nat.testBit_eq_false_of_lt
        (lt_of_lt_of_le h (le_trans (show (256 : ℕ) ≤ 2 ^ 8 by norm_num)
          (Nat.pow_le_pow_right (by norm_num) hi)))
    have h255 : Nat.testBit 255 i = false :=
      Nat.testBit_eq_false_of_lt
        (lt_of_lt_of_le (show (255 : ℕ) < 2 ^ 8 by norm_num)
          (Nat.pow_le_pow_right (by norm_num) hi))
    simp [hn, h255]

/-- Claim C10: `get_needle_angle` mutates the caller's grayscale buffer in
place: every pixel in the disk of radius `int(r*r_inner_min)` around the
center is overwritten with `255` before thresholding (so a frame with a
non-255 pixel there is changed by the call), while every pixel outside that
disk keeps its original value in the caller's buffer -- in particular the
outer mask, applied through `cv2.bitwise_or` to a fresh array, never touches
the caller's buffer even though the local working image is white outside
the outer radius. -/
theorem get_needle_angle_mutates_caller (gray : GrayImage)
    (cx cy rInner rOuter : ℤ) (p : ℤ × ℤ)
    (hin : (p.1 - cx) ^ 2 + (p.2 - cy) ^ 2 ≤ rInner ^ 2)
    (hv : gray p ≠ 255) :
    (needleMaskEffect gray cx cy rInner rOuter).1 p = 255 ∧
    (needleMaskEffect gray cx cy rInner rOuter).1 p ≠ gray p ∧
    (∀ q : ℤ × ℤ, rInner ^ 2 < (q.1 - cx) ^ 2 + (q.2 - cy) ^ 2 →
      (needleMaskEffect gray cx cy rInner rOuter).1 q = gray q) ∧
    (∀ q : ℤ × ℤ, rOuter ^ 2 < (q.1 - cx) ^ 2 + (q.2 - cy) ^ 2 →
      rInner ^ 2 < (q.1 - cx) ^ 2 + (q.2 - cy) ^ 2 → gray q < 256 →
      (needleMaskEffect gray cx cy rInner rOuter).2 q = 255) := by
  refine ⟨?_, ?_, ?_, ?_⟩
  · simp [needleMaskEffect, fillDisk, hin]
  · simp only [needleMaskEffect, fillDisk, bitwiseOrImg, if_pos hin]
    exact fun h => hv h.symm
  · intro q hq
    simp [needleMaskEffect, fillDisk, not_le.mpr hq]
  · intro q hqo hqi hb
    simp only [needleMaskEffect, bitwiseOrImg, fillDisk,
      if_neg (not_le.mpr hqo), if_neg (not_le.mpr hqi)]
    exact or_255_of_lt _ hb

/-- Witness for `get_needle_angle_mutates_caller`: a uniform gray-7 frame is
changed to `255` at the center pixel by the inner-disk mask. -/
theorem get_needle_angle_mutates_caller_witness :
    (((0, 0) : ℤ × ℤ).1 - 0) ^ 2 + (((0, 0) : ℤ × ℤ).2 - 0) ^ 2 ≤ (2 : ℤ) ^ 2 ∧
    (needleMaskEffect (fun _ => 7) 0 0 2 5).1 (0, 0) = 255 :=
  ⟨by norm_num,
   (get_needle_angle_mutates_caller (fun _ => 7) 0 0 2 5 (0, 0)
      (by norm_num) (by norm_num)).1⟩

/-- Witness for `warn_rate_limited`: its hypothesis discharged at the
concrete configuration of the two-frame scenario. -/
theorem warn_rate_limited_witness :
    (0 : ℚ) ≤ 1000000 ∧
    (frameStep ⟨5, 100, 600, 1000000, 1⟩ ⟨0, 0, [], 0⟩ (Except.ok 3) 1000).2 =
      [Alert.outOfRange 3] :=
  ⟨by norm_num,
   (warn_rate_limited ⟨5, 100, 600, 1000000, 1⟩ ⟨0, 0, [], 0⟩ 3 1000
      (by norm_num)).2.2.2.1⟩
